import Mathlib

/-!
Verification of the WMD browser audio player (src/app.js, src/storage.js).

The development shallowly embeds the two algorithmic cores of the repository:

* the playback-order engine of `src/app.js` (`playNext`, `playPrevious`,
  `toggleShuffle`, `generateShuffledOrder`, `playTrack`, `loadTrack`), modelled
  as pure transition functions on an explicit `AppState`;
* the persistence layer of `src/storage.js` (`savePlaylist`, `loadPlaylist`,
  `deletePlaylist`, `savePreferences`, `loadPreferences`), modelled as pure
  functions on an explicit store state.

JavaScript-specific behaviour is embedded explicitly: the `%` operator on
numbers is truncated remainder (`Int.tmod`), `Array.prototype.indexOf` returns
`-1` on a miss (`jsIndexOf`), out-of-bounds reads yield `undefined` (`jsNth`
returning `none`), and `Math.floor(Math.random() * (i + 1))` is modelled by an
arbitrary draw function `rand : Nat → Nat` reduced mod `i + 1`, which ranges
over exactly the values the source expression can produce.

Where a computation in `src/app.js` would throw an uncaught `TypeError`
(reading a property of `undefined`), the corresponding transition returns
`none`.
-/

/-- In-memory track of `src/app.js` (`state.tracks` entries). Only the fields
relevant to the order engine are kept; the binary handle and object URL play
no role in index computations. -/
structure ATrack where
  name : String
deriving DecidableEq

/-- The mutable session state of `src/app.js` (`const state = {...}` plus the
audio element position read by `playPrevious`). `currentIndex` and
`shuffledIndex` are JavaScript numbers that the code can drive outside
`[0, n)`, hence `Int`. `audioCurrentTime` models `elements.audio.currentTime`. -/
structure AppState where
  tracks : List ATrack
  currentIndex : Int
  shuffleMode : Bool
  shuffledOrder : List Nat
  shuffledIndex : Int
  audioCurrentTime : Rat
deriving DecidableEq

/-- JavaScript `Array.prototype.indexOf`: first position of `x`, `-1` on a miss. -/
def jsIndexOf (l : List Nat) (x : Int) : Int :=
  match l with
  | [] => -1
  | a :: as =>
    if (a : Int) = x then 0
    else if jsIndexOf as x = -1 then -1 else jsIndexOf as x + 1

/-- JavaScript indexed read `l[i]`: `none` models `undefined` (negative or
out-of-bounds index). -/
def jsNth (l : List Nat) (i : Int) : Option Int :=
  if i < 0 then none
  else if i.toNat < l.length then some ((l.getD i.toNat 0 : Nat) : Int)
  else none

/-- The destructuring swap `[o[i], o[j]] = [o[j], o[i]]` of
`generateShuffledOrder` (src/app.js:500-501): both reads happen before the
two writes. -/
def swapOp (l : List Nat) (i j : Nat) : List Nat :=
  (l.set i (l.getD j 0)).set j (l.getD i 0)

/-- The Fisher-Yates loop `for (let i = len - 1; i > 0; i--)` of
`generateShuffledOrder` (src/app.js:496-502); the counter argument is the
current value of `i`, and `rand i % (i + 1)` ranges over exactly the values
`Math.floor(Math.random() * (i + 1))` can take. -/
def fyLoop (rand : Nat → Nat) : Nat → List Nat → List Nat
  | 0, l => l
  | k + 1, l => fyLoop rand k (swapOp l (k + 1) (rand (k + 1) % (k + 2)))

/-- The full shuffled order produced by `generateShuffledOrder`
(src/app.js:491-506) for a track count `n`: start from
`state.tracks.map((_, i) => i) = [0, …, n-1]` and run the Fisher-Yates loop. -/
def shuffleOrder (rand : Nat → Nat) (n : Nat) : List Nat :=
  fyLoop rand (n - 1) (List.range n)

/-- `generateShuffledOrder` (src/app.js:491-506): rebuilds
`state.shuffledOrder` and unconditionally resets `state.shuffledIndex` to 0. -/
def generateShuffledOrder (rand : Nat → Nat) (s : AppState) : AppState :=
  { s with shuffledOrder := shuffleOrder rand s.tracks.length, shuffledIndex := 0 }

/-- `loadTrack` (src/app.js:372-388): rejects an out-of-range index without
touching the state, otherwise records the new `currentIndex`. (UI and media
element writes carry no state the claims mention.) -/
def loadTrack (s : AppState) (index : Int) : AppState :=
  if index < 0 ∨ (s.tracks.length : Int) ≤ index then s
  else { s with currentIndex := index }

/-- `playTrack` (src/app.js:394-405): loads the track, then, when shuffle is
active, re-syncs `shuffledIndex` to `state.shuffledOrder.indexOf(index)` —
even when `loadTrack` rejected the index. -/
def playTrack (s : AppState) (index : Int) : AppState :=
  if (loadTrack s index).shuffleMode then
    { loadTrack s index with shuffledIndex := jsIndexOf (loadTrack s index).shuffledOrder index }
  else loadTrack s index

/-- `playNext` (src/app.js:413-428). Empty track list: early return. Shuffle
mode: advance `shuffledIndex` by `(shuffledIndex + 1) % shuffledOrder.length`
(JavaScript truncated remainder; a zero length gives `NaN`, and the subsequent
`tracks[undefined].url` read throws — modelled as `none`, as is an
`undefined` entry read through a negative index). Sequential mode:
`(currentIndex + 1) % tracks.length`. -/
def playNext (s : AppState) : Option AppState :=
  if s.tracks.length = 0 then some s
  else if s.shuffleMode then
    if _h : s.shuffledOrder.length = 0 then none
    else
      match jsNth s.shuffledOrder ((s.shuffledIndex + 1).tmod (s.shuffledOrder.length : Int)) with
      | none => none
      | some v =>
        some (playTrack
          { s with shuffledIndex := (s.shuffledIndex + 1).tmod (s.shuffledOrder.length : Int) } v)
  else
    some (playTrack s ((s.currentIndex + 1).tmod (s.tracks.length : Int)))

/-- `playPrevious` (src/app.js:433-455). Empty track list: early return. More
than 3 seconds into the track: restart it (`audio.currentTime = 0`) and do not
change the index. Otherwise step the cursor back, mirroring `playNext`. -/
def playPrevious (s : AppState) : Option AppState :=
  if s.tracks.length = 0 then some s
  else if (3 : Rat) < s.audioCurrentTime then some { s with audioCurrentTime := 0 }
  else if s.shuffleMode then
    if _h : s.shuffledOrder.length = 0 then none
    else
      match jsNth s.shuffledOrder
          ((s.shuffledIndex - 1 + s.shuffledOrder.length).tmod (s.shuffledOrder.length : Int)) with
      | none => none
      | some v =>
        some (playTrack
          { s with shuffledIndex :=
              (s.shuffledIndex - 1 + s.shuffledOrder.length).tmod (s.shuffledOrder.length : Int) } v)
  else
    some (playTrack s ((s.currentIndex - 1 + s.tracks.length).tmod (s.tracks.length : Int)))

/-- `toggleShuffle` (src/app.js:464-475): flip the mode; when it is now on and
the track list is non-empty, regenerate the order and point `shuffledIndex`
at `state.shuffledOrder.indexOf(state.currentIndex)`. -/
def toggleShuffle (rand : Nat → Nat) (s : AppState) : AppState :=
  let s1 := { s with shuffleMode := !s.shuffleMode }
  if s1.shuffleMode && decide (0 < s1.tracks.length) then
    let s2 := generateShuffledOrder rand s1
    { s2 with shuffledIndex := jsIndexOf s2.shuffledOrder s2.currentIndex }
  else s1

/-- Repeated `playNext`, propagating a thrown exception. -/
def iterNext : Nat → AppState → Option AppState
  | 0, s => some s
  | k + 1, s => (playNext s).bind (iterNext k)

/-- Repeated `playPrevious`, propagating a thrown exception. -/
def iterPrev : Nat → AppState → Option AppState
  | 0, s => some s
  | k + 1, s => (playPrevious s).bind (iterPrev k)

-- ==================== Shuffle permutation lemmas ====================

lemma swapOp_length (l : List Nat) (i j : Nat) : (swapOp l i j).length = l.length := by
  simp [swapOp]

lemma swapOp_perm (l : List Nat) (i j : Nat) (hi : i < l.length) (hj : j < l.length) :
    (swapOp l i j).Perm l := by
  rw [List.perm_iff_count]
  intro x
  have hj1 : j < (l.set i (l.getD j 0)).length := by simpa using hj
  have h1 := List.count_set (l.getD i 0) x (l.set i (l.getD j 0)) j hj1
  have h2 := List.count_set (l.getD j 0) x l i hi
  have hget : (l.set i (l.getD j 0))[j] = l.getD j 0 := by
    rcases eq_or_ne i j with h | h
    · subst h
      exact List.getElem_set_self hj1
    · rw [List.getElem_set_ne h]
      exact (List.getD_eq_getElem l 0 hj).symm
  have hgi : l[i] = l.getD i 0 := (List.getD_eq_getElem l 0 hi).symm
  have hgj : l[j] = l.getD j 0 := (List.getD_eq_getElem l 0 hj).symm
  rw [hget] at h1
  rw [hgi] at h2
  -- occurrence bounds resolving the truncated subtractions in count_set
  have hmemj : l.getD j 0 ∈ l := by rw [hgj.symm]; exact List.getElem_mem hj
  have hmemi : l.getD i 0 ∈ l := by rw [hgi.symm]; exact List.getElem_mem hi
  unfold swapOp
  simp only [beq_iff_eq] at h1 h2
  by_cases hbx : l.getD j 0 = x
  · have hc1 : 0 < List.count x l := List.count_pos_iff.mpr (hbx ▸ hmemj)
    by_cases hcx : l.getD i 0 = x
    · rw [if_pos hbx, if_pos hcx] at h1 h2
      omega
    · rw [if_pos hbx, if_neg hcx] at h1 h2
      omega
  · by_cases hcx : l.getD i 0 = x
    · have hc1 : 0 < List.count x l := List.count_pos_iff.mpr (hcx ▸ hmemi)
      rw [if_neg hbx, if_pos hcx] at h1 h2
      omega
    · rw [if_neg hbx, if_neg hcx] at h1 h2
      omega

lemma fyLoop_length (rand : Nat → Nat) : ∀ (k : Nat) (l : List Nat),
    (fyLoop rand k l).length = l.length := by
  intro k
  induction k with
  | zero => intro l; rfl
  | succ k ih =>
    intro l
    rw [fyLoop, ih, swapOp_length]

lemma fyLoop_perm (rand : Nat → Nat) : ∀ (k : Nat) (l : List Nat),
    k < l.length → (fyLoop rand k l).Perm l := by
  intro k
  induction k with
  | zero => intro l _; exact List.Perm.refl l
  | succ k ih =>
    intro l hk
    have hj : rand (k + 1) % (k + 2) < l.length := by
      have : rand (k + 1) % (k + 2) < k + 2 := Nat.mod_lt _ (by omega)
      omega
    have h1 : (swapOp l (k + 1) (rand (k + 1) % (k + 2))).Perm l :=
      swapOp_perm l _ _ hk hj
    have h2 : k < (swapOp l (k + 1) (rand (k + 1) % (k + 2))).length := by
      rw [swapOp_length]; omega
    exact (ih _ h2).trans h1

lemma shuffleOrder_perm (rand : Nat → Nat) (n : Nat) :
    (shuffleOrder rand n).Perm (List.range n) := by
  cases n with
  | zero => exact List.Perm.refl _
  | succ m =>
    apply fyLoop_perm
    simp

lemma shuffleOrder_length (rand : Nat → Nat) (n : Nat) :
    (shuffleOrder rand n).length = n := by
  rw [shuffleOrder, fyLoop_length, List.length_range]

/-- Claim C3: for every track count `n` and every sequence of random draws, the
order produced by `generateShuffledOrder` is a permutation of `[0, n)`, and
every index in `[0, n)` occurs in it exactly once. -/
theorem c3_shuffle_bijection (n : Nat) (rand : Nat → Nat) :
    (shuffleOrder rand n).Perm (List.range n) ∧
      ∀ k, k < n → (shuffleOrder rand n).count k = 1 := by
  refine ⟨shuffleOrder_perm rand n, fun k hk => ?_⟩
  rw [(shuffleOrder_perm rand n).count_eq]
  exact List.count_eq_one_of_mem (List.nodup_range n) (List.mem_range.mpr hk)

/-- Witness for C3 at `n = 3` with a concrete draw function. -/
theorem c3_witness :
    (shuffleOrder (fun _ => 1) 3).Perm (List.range 3) ∧ (shuffleOrder (fun _ => 1) 3).count 2 = 1 :=
  ⟨(c3_shuffle_bijection 3 (fun _ => 1)).1,
    (c3_shuffle_bijection 3 (fun _ => 1)).2 2 (by decide)⟩

-- ==================== JavaScript-primitive lemmas ====================

lemma jsNth_eq_some (l : List Nat) (i : Int) (h0 : 0 ≤ i) (hl : i < l.length) :
    jsNth l i = some ((l.getD i.toNat 0 : Nat) : Int) := by
  have ht : i.toNat < l.length := by omega
  simp [jsNth, not_lt.mpr h0, ht]

lemma jsIndexOf_getElem : ∀ (l : List Nat), l.Nodup → ∀ (i : Nat) (h : i < l.length),
    jsIndexOf l ((l[i] : Nat) : Int) = i := by
  intro l
  induction l with
  | nil => intro _ i h; simp at h
  | cons a as ih =>
    intro hnd i h
    rw [List.nodup_cons] at hnd
    cases i with
    | zero => simp [jsIndexOf]
    | succ i =>
      have hi : i < as.length := by simpa using h
      have hne : ¬ ((a : Int) = ((as[i] : Nat) : Int)) := by
        intro heq
        exact hnd.1 ((by exact_mod_cast heq : a = as[i]) ▸ List.getElem_mem hi)
      have hr := ih hnd.2 i hi
      have hgl : (a :: as)[i + 1] = as[i] := by simp
      rw [hgl, jsIndexOf, if_neg hne, hr]
      have hne1 : ¬ ((i : Int) = -1) := by omega
      rw [if_neg hne1]
      push_cast
      ring

lemma tmod_nonneg_bounds (a b : Int) (h0 : 0 ≤ a) (hb : 0 < b) :
    a.tmod b = a % b ∧ 0 ≤ a % b ∧ a % b < b :=
  ⟨Int.tmod_eq_emod h0 (le_of_lt hb),
   Int.emod_nonneg a (by omega), Int.emod_lt_of_pos a hb⟩

lemma loadTrack_inrange (t : AppState) (idx : Int) (h0 : 0 ≤ idx)
    (hlt : idx < (t.tracks.length : Int)) :
    loadTrack t idx = { t with currentIndex := idx } := by
  rw [loadTrack, if_neg]
  push_neg
  exact ⟨h0, hlt⟩

lemma playTrack_shuffle_inrange (t : AppState) (idx : Int) (hm : t.shuffleMode = true)
    (h0 : 0 ≤ idx) (hlt : idx < (t.tracks.length : Int)) :
    playTrack t idx
      = { t with currentIndex := idx, shuffledIndex := jsIndexOf t.shuffledOrder idx } := by
  rw [playTrack, loadTrack_inrange t idx h0 hlt, if_pos hm]

lemma playTrack_seq (t : AppState) (idx : Int) (hm : t.shuffleMode = false)
    (h0 : 0 ≤ idx) (hlt : idx < (t.tracks.length : Int)) :
    playTrack t idx = { t with currentIndex := idx } := by
  rw [playTrack, loadTrack_inrange t idx h0 hlt, if_neg]
  show ¬ (t.shuffleMode = true)
  simp [hm]

-- ==================== Order-engine claim theorems ====================

/-- Claim C8: for every state with an empty track list — whatever the mode,
permutation and cursor — both `playNext` and `playPrevious` are no-ops that
change nothing and raise nothing; and under the documented OrderState
invariant for non-empty lists (the permutation is a bijection over the track
indices and the cursor is non-negative) neither operation ever throws, for
any `currentIndex`. -/
theorem c8_empty_noop (s : AppState)
    (hinv : s.shuffleMode = true → s.tracks ≠ [] →
      s.shuffledOrder.Perm (List.range s.tracks.length) ∧ 0 ≤ s.shuffledIndex) :
    (s.tracks = [] → playNext s = some s ∧ playPrevious s = some s) ∧
    (playNext s).isSome = true ∧ (playPrevious s).isSome = true := by
  by_cases hempty : s.tracks.length = 0
  · have he : s.tracks = [] := List.length_eq_zero.mp hempty
    simp [playNext, playPrevious, hempty, he]
  · have hne : s.tracks ≠ [] := by
      intro h; exact hempty (by simp [h])
    refine ⟨fun h => absurd h hne, ?_, ?_⟩
    · rw [playNext, if_neg hempty]
      cases hmode : s.shuffleMode with
      | false => simp
      | true =>
        obtain ⟨hperm, hge⟩ := hinv hmode hne
        have hlen : s.shuffledOrder.length = s.tracks.length := by
          simpa using hperm.length_eq
        have hlen0 : s.shuffledOrder.length ≠ 0 := by omega
        obtain ⟨heq, hge2, hlt2⟩ :=
          tmod_nonneg_bounds (s.shuffledIndex + 1) (s.shuffledOrder.length : Int)
            (by omega) (by exact_mod_cast Nat.pos_of_ne_zero hlen0)
        rw [if_pos rfl, dif_neg hlen0, jsNth_eq_some _ _ (heq ▸ hge2) (heq ▸ hlt2)]
        simp
    · rw [playPrevious, if_neg hempty]
      by_cases hct : (3 : Rat) < s.audioCurrentTime
      · simp [hct]
      · rw [if_neg hct]
        cases hmode : s.shuffleMode with
        | false => simp
        | true =>
          obtain ⟨hperm, hge⟩ := hinv hmode hne
          have hlen : s.shuffledOrder.length = s.tracks.length := by
            simpa using hperm.length_eq
          have hlen0 : s.shuffledOrder.length ≠ 0 := by omega
          obtain ⟨heq, hge2, hlt2⟩ :=
            tmod_nonneg_bounds (s.shuffledIndex - 1 + s.shuffledOrder.length)
              (s.shuffledOrder.length : Int)
              (by omega) (by exact_mod_cast Nat.pos_of_ne_zero hlen0)
          rw [if_pos rfl, dif_neg hlen0, jsNth_eq_some _ _ (heq ▸ hge2) (heq ▸ hlt2)]
          simp

/-- Witness for C8 on the reachable shuffle-on empty state (shuffle restored
from preferences before any tracks are loaded): both operations are exact
no-ops there. -/
theorem c8_witness :
    ((⟨[], 0, true, [], 0, 0⟩ : AppState).tracks = []) ∧
    playNext ⟨[], 0, true, [], 0, 0⟩ = some ⟨[], 0, true, [], 0, 0⟩ ∧
    playPrevious ⟨[], 0, true, [], 0, 0⟩ = some ⟨[], 0, true, [], 0, 0⟩ :=
  ⟨rfl, (c8_empty_noop ⟨[], 0, true, [], 0, 0⟩ (by decide)).1 rfl⟩

lemma shuffleOrder_nodup (rand : Nat → Nat) (n : Nat) : (shuffleOrder rand n).Nodup :=
  ((shuffleOrder_perm rand n).symm).nodup (List.nodup_range n)

lemma shuffleOrder_getElem_lt (rand : Nat → Nat) (n : Nat) (i : Nat)
    (h : i < (shuffleOrder rand n).length) : (shuffleOrder rand n)[i] < n := by
  have hm : (shuffleOrder rand n)[i] ∈ shuffleOrder rand n := List.getElem_mem h
  have := (shuffleOrder_perm rand n).mem_iff.mp hm
  simpa using this

/-- Claim C2 (amended): toggling shuffle on with a non-empty track list builds
a fresh Fisher-Yates order and sets the cursor to
`shuffledOrder.indexOf(currentIndex)` — the position of `currentIndex` when it
occurs in the order and `-1` (not 0) when it does not; with an empty track
list neither the order nor the cursor is touched. -/
theorem c2_toggle_shuffle (rand : Nat → Nat) (s : AppState) (hm : s.shuffleMode = false) :
    (toggleShuffle rand s).shuffleMode = true ∧
    (s.tracks ≠ [] →
      (toggleShuffle rand s).shuffledOrder = shuffleOrder rand s.tracks.length ∧
      (toggleShuffle rand s).shuffledIndex
        = jsIndexOf (shuffleOrder rand s.tracks.length) s.currentIndex) ∧
    (s.tracks = [] →
      (toggleShuffle rand s).shuffledOrder = s.shuffledOrder ∧
      (toggleShuffle rand s).shuffledIndex = s.shuffledIndex) := by
  by_cases he : s.tracks = []
  · simp [toggleShuffle, hm, he]
  · have hl : 0 < s.tracks.length := List.length_pos.mpr he
    simp [toggleShuffle, generateShuffledOrder, hm, he, hl]

/-- Counterexample to C2 as stated: a one-element track list with the (out of
range) current index 3.  `toggleShuffle` generates the order `[0]`,
`indexOf(3)` misses, and the cursor becomes `-1` — it does not fall back
to 0. -/
theorem c2_counterexample :
    (toggleShuffle (fun _ => 0)
      ⟨[⟨"a"⟩], 3, false, [], 0, 0⟩).shuffledIndex = -1 ∧
    ¬ ((toggleShuffle (fun _ => 0)
      ⟨[⟨"a"⟩], 3, false, [], 0, 0⟩).shuffledIndex = 0) := by
  decide

/-- Witness for C2 on a reachable state: two tracks, current index 1. -/
theorem c2_witness :
    ((⟨[⟨"a"⟩, ⟨"b"⟩], 1, false, [], 0, 0⟩ : AppState).shuffleMode = false) ∧
    (toggleShuffle (fun _ => 0) ⟨[⟨"a"⟩, ⟨"b"⟩], 1, false, [], 0, 0⟩).shuffledOrder
      = shuffleOrder (fun _ => 0) 2 ∧
    (toggleShuffle (fun _ => 0) ⟨[⟨"a"⟩, ⟨"b"⟩], 1, false, [], 0, 0⟩).shuffledIndex
      = jsIndexOf (shuffleOrder (fun _ => 0) 2) 1 :=
  ⟨rfl, (c2_toggle_shuffle (fun _ => 0) ⟨[⟨"a"⟩, ⟨"b"⟩], 1, false, [], 0, 0⟩ rfl).2.1
    (by decide)⟩

/-- Claim C10 (amended): `generateShuffledOrder` always resets the cursor to
0, whatever the current track and previous cursor were; consequently, in
shuffle mode with at least two tracks, the first `playNext` after a
regeneration moves the cursor to position 1 and plays the order entry at
position 1 — independent of the current track. (With a single track the
cursor instead wraps to position 0, the only position there is.) -/
theorem c10_regenerate_resets_cursor (rand : Nat → Nat) (s : AppState) :
    (generateShuffledOrder rand s).shuffledIndex = 0 ∧
    (s.shuffleMode = true → 2 ≤ s.tracks.length →
      ∃ s2, playNext (generateShuffledOrder rand s) = some s2 ∧
        s2.shuffledIndex = 1 ∧
        s2.currentIndex = (((shuffleOrder rand s.tracks.length).getD 1 0 : Nat) : Int)) := by
  refine ⟨rfl, fun hsh hn => ?_⟩
  have hlen : (shuffleOrder rand s.tracks.length).length = s.tracks.length :=
    shuffleOrder_length rand s.tracks.length
  have h1 : 1 < (shuffleOrder rand s.tracks.length).length := by omega
  have hn0 : ¬ (s.tracks.length = 0) := by omega
  have hol : ¬ ((shuffleOrder rand s.tracks.length).length = 0) := by omega
  have htm : (1 : Int).tmod ((shuffleOrder rand s.tracks.length).length : Int) = 1 := by
    rw [Int.tmod_eq_emod (by omega) (by omega)]
    exact Int.emod_eq_of_lt (by omega) (by exact_mod_cast h1)
  have hnth : jsNth (shuffleOrder rand s.tracks.length) 1
      = some (((shuffleOrder rand s.tracks.length).getD 1 0 : Nat) : Int) := by
    have := jsNth_eq_some (shuffleOrder rand s.tracks.length) 1 (by omega)
      (by exact_mod_cast h1)
    simpa using this
  have hvlt : (shuffleOrder rand s.tracks.length).getD 1 0 < s.tracks.length := by
    rw [List.getD_eq_getElem _ 0 h1]
    exact shuffleOrder_getElem_lt rand s.tracks.length 1 h1
  have hsync : jsIndexOf (shuffleOrder rand s.tracks.length)
      (((shuffleOrder rand s.tracks.length).getD 1 0 : Nat) : Int) = 1 := by
    rw [List.getD_eq_getElem _ 0 h1]
    exact jsIndexOf_getElem _ (shuffleOrder_nodup rand s.tracks.length) 1 h1
  refine ⟨playTrack
      { s with shuffledOrder := shuffleOrder rand s.tracks.length, shuffledIndex := 1 }
      (((shuffleOrder rand s.tracks.length).getD 1 0 : Nat) : Int), ?_, ?_, ?_⟩
  · simp [playNext, generateShuffledOrder, hsh, hn0, hol, htm, hnth]
  · rw [playTrack_shuffle_inrange
      { s with shuffledOrder := shuffleOrder rand s.tracks.length, shuffledIndex := 1 }
      _ hsh (by positivity) (by exact_mod_cast hvlt)]
    exact hsync
  · rw [playTrack_shuffle_inrange
      { s with shuffledOrder := shuffleOrder rand s.tracks.length, shuffledIndex := 1 }
      _ hsh (by positivity) (by exact_mod_cast hvlt)]

/-- Counterexample to C10 as stated: with a single track (`n = 1`), after a
regeneration the first `playNext` wraps the cursor back to position 0 — it
does not play the entry at position 1. -/
theorem c10_counterexample :
    ((playNext (generateShuffledOrder (fun _ => 0)
        ⟨[⟨"a"⟩], 0, true, [], 5, 0⟩)).map (fun t => t.shuffledIndex)) = some 0 ∧
    ¬ (((playNext (generateShuffledOrder (fun _ => 0)
        ⟨[⟨"a"⟩], 0, true, [], 5, 0⟩)).map (fun t => t.shuffledIndex)) = some 1) := by
  decide

/-- Witness for C10 in shuffle mode with three tracks and a stale cursor. -/
theorem c10_witness :
    ((⟨[⟨"a"⟩, ⟨"b"⟩, ⟨"c"⟩], 2, true, [], 2, 0⟩ : AppState).shuffleMode = true) ∧
    (2 ≤ (⟨[⟨"a"⟩, ⟨"b"⟩, ⟨"c"⟩], 2, true, [], 2, 0⟩ : AppState).tracks.length) ∧
    ((generateShuffledOrder (fun _ => 1) ⟨[⟨"a"⟩, ⟨"b"⟩, ⟨"c"⟩], 2, true, [], 2, 0⟩).shuffledIndex
        = 0 ∧
      ∃ s2, playNext (generateShuffledOrder (fun _ => 1)
          ⟨[⟨"a"⟩, ⟨"b"⟩, ⟨"c"⟩], 2, true, [], 2, 0⟩) = some s2 ∧
        s2.shuffledIndex = 1 ∧
        s2.currentIndex = (((shuffleOrder (fun _ => 1) 3).getD 1 0 : Nat) : Int)) :=
  ⟨rfl, by decide,
    (c10_regenerate_resets_cursor (fun _ => 1) ⟨[⟨"a"⟩, ⟨"b"⟩, ⟨"c"⟩], 2, true, [], 2, 0⟩).1,
    (c10_regenerate_resets_cursor (fun _ => 1)
      ⟨[⟨"a"⟩, ⟨"b"⟩, ⟨"c"⟩], 2, true, [], 2, 0⟩).2 rfl (by decide)⟩

-- ==================== Sequential-mode stepping lemmas ====================

lemma playNext_sequential (s : AppState) (hm : s.shuffleMode = false)
    (hn : 0 < s.tracks.length) (hc0 : 0 ≤ s.currentIndex)
    (_hcn : s.currentIndex < (s.tracks.length : Int)) :
    playNext s
      = some { s with currentIndex := (s.currentIndex + 1) % (s.tracks.length : Int) } := by
  have hn0 : ¬ (s.tracks.length = 0) := by omega
  have hpos : (0 : Int) < (s.tracks.length : Int) := by exact_mod_cast hn
  have htm : (s.currentIndex + 1).tmod (s.tracks.length : Int)
      = (s.currentIndex + 1) % (s.tracks.length : Int) :=
    Int.tmod_eq_emod (by omega) (by omega)
  rw [playNext, if_neg hn0, if_neg (by simp [hm]), htm,
    playTrack_seq s _ hm (Int.emod_nonneg _ (by omega)) (Int.emod_lt_of_pos _ hpos)]

lemma playPrevious_sequential (s : AppState) (hm : s.shuffleMode = false)
    (hn : 0 < s.tracks.length) (hc0 : 0 ≤ s.currentIndex)
    (_hcn : s.currentIndex < (s.tracks.length : Int)) (hct : s.audioCurrentTime ≤ 3) :
    playPrevious s
      = some { s with currentIndex :=
          (s.currentIndex - 1 + s.tracks.length) % (s.tracks.length : Int) } := by
  have hn0 : ¬ (s.tracks.length = 0) := by omega
  have hpos : (0 : Int) < (s.tracks.length : Int) := by exact_mod_cast hn
  have htm : (s.currentIndex - 1 + s.tracks.length).tmod (s.tracks.length : Int)
      = (s.currentIndex - 1 + s.tracks.length) % (s.tracks.length : Int) :=
    Int.tmod_eq_emod (by omega) (by omega)
  rw [playPrevious, if_neg hn0, if_neg (not_lt.mpr hct), if_neg (by simp [hm]), htm,
    playTrack_seq s _ hm (Int.emod_nonneg _ (by omega)) (Int.emod_lt_of_pos _ hpos)]

lemma iterNext_sequential : ∀ (k : Nat) (s : AppState), s.shuffleMode = false →
    0 < s.tracks.length → 0 ≤ s.currentIndex → s.currentIndex < (s.tracks.length : Int) →
    iterNext k s
      = some { s with currentIndex := (s.currentIndex + k) % (s.tracks.length : Int) } := by
  intro k
  induction k with
  | zero =>
    intro s hm hn hc0 hcn
    have h0 : (s.currentIndex + ((0 : Nat) : Int)) % (s.tracks.length : Int)
        = s.currentIndex := by
      push_cast
      rw [add_zero]
      exact Int.emod_eq_of_lt hc0 hcn
    rw [iterNext, h0]
  | succ k ih =>
    intro s hm hn hc0 hcn
    have hpos : (0 : Int) < (s.tracks.length : Int) := by exact_mod_cast hn
    have harith : ((s.currentIndex + 1) % (s.tracks.length : Int) + (k : Int))
        % (s.tracks.length : Int)
        = (s.currentIndex + ((k + 1 : Nat) : Int)) % (s.tracks.length : Int) := by
      rw [Int.emod_add_emod]
      push_cast
      ring_nf
    calc iterNext (k + 1) s = (playNext s).bind (iterNext k) := rfl
      _ = iterNext k { s with currentIndex := (s.currentIndex + 1) % (s.tracks.length : Int) } := by
          rw [playNext_sequential s hm hn hc0 hcn]
          rfl
      _ = some { s with currentIndex := (s.currentIndex + ((k + 1 : Nat) : Int))
            % (s.tracks.length : Int) } := by
          rw [ih { s with currentIndex := (s.currentIndex + 1) % (s.tracks.length : Int) }
            hm hn (Int.emod_nonneg _ (by omega)) (Int.emod_lt_of_pos _ hpos)]
          exact congrArg (fun z => some { s with currentIndex := z }) harith

lemma iterPrev_sequential : ∀ (k : Nat) (s : AppState), s.shuffleMode = false →
    0 < s.tracks.length → 0 ≤ s.currentIndex → s.currentIndex < (s.tracks.length : Int) →
    s.audioCurrentTime ≤ 3 →
    iterPrev k s
      = some { s with currentIndex := (s.currentIndex - k) % (s.tracks.length : Int) } := by
  intro k
  induction k with
  | zero =>
    intro s hm hn hc0 hcn hct
    have h0 : (s.currentIndex - ((0 : Nat) : Int)) % (s.tracks.length : Int)
        = s.currentIndex := by
      push_cast
      rw [sub_zero]
      exact Int.emod_eq_of_lt hc0 hcn
    rw [iterPrev, h0]
  | succ k ih =>
    intro s hm hn hc0 hcn hct
    have hpos : (0 : Int) < (s.tracks.length : Int) := by exact_mod_cast hn
    have harith : ((s.currentIndex - 1 + s.tracks.length) % (s.tracks.length : Int) - (k : Int))
        % (s.tracks.length : Int)
        = (s.currentIndex - ((k + 1 : Nat) : Int)) % (s.tracks.length : Int) := by
      have h1 : ((s.currentIndex - 1 + s.tracks.length) % (s.tracks.length : Int) - (k : Int))
          % (s.tracks.length : Int)
          = (s.currentIndex - 1 + s.tracks.length - (k : Int)) % (s.tracks.length : Int) := by
        have h2 := Int.emod_add_emod (s.currentIndex - 1 + s.tracks.length)
          (s.tracks.length : Int) (-(k : Int))
        simpa [sub_eq_add_neg] using h2
      rw [h1]
      have h3 : s.currentIndex - 1 + s.tracks.length - (k : Int)
          = (s.currentIndex - ((k + 1 : Nat) : Int)) + (s.tracks.length : Int) * 1 := by
        push_cast
        ring
      rw [h3, Int.add_mul_emod_self_left]
    calc iterPrev (k + 1) s = (playPrevious s).bind (iterPrev k) := rfl
      _ = iterPrev k { s with currentIndex :=
            (s.currentIndex - 1 + s.tracks.length) % (s.tracks.length : Int) } := by
          rw [playPrevious_sequential s hm hn hc0 hcn hct]
          rfl
      _ = some { s with currentIndex := (s.currentIndex - ((k + 1 : Nat) : Int))
            % (s.tracks.length : Int) } := by
          rw [ih { s with currentIndex :=
              (s.currentIndex - 1 + s.tracks.length) % (s.tracks.length : Int) }
            hm hn (Int.emod_nonneg _ (by omega)) (Int.emod_lt_of_pos _ hpos) hct]
          exact congrArg (fun z => some { s with currentIndex := z }) harith

/-- Claim C7 (amended): in Sequential mode with `n ≥ 1` tracks and a valid
current index, `playNext` computes `(currentIndex + 1) mod n`, and — provided
the playback position is at most 3 seconds — `playPrevious` computes
`(currentIndex - 1 + n) mod n`; `n` consecutive `playNext` calls return to the
starting index, and so do `n` consecutive `playPrevious` calls. (When the
position is beyond 3 seconds `playPrevious` instead restarts the current
track, leaving the index unchanged.) -/
theorem c7_sequential_order (s : AppState) (hm : s.shuffleMode = false)
    (hn : 0 < s.tracks.length) (hc0 : 0 ≤ s.currentIndex)
    (hcn : s.currentIndex < (s.tracks.length : Int)) (hct : s.audioCurrentTime ≤ 3) :
    ((playNext s).map (fun t => t.currentIndex)
      = some ((s.currentIndex + 1) % (s.tracks.length : Int))) ∧
    ((playPrevious s).map (fun t => t.currentIndex)
      = some ((s.currentIndex - 1 + s.tracks.length) % (s.tracks.length : Int))) ∧
    ((iterNext s.tracks.length s).map (fun t => t.currentIndex) = some s.currentIndex) ∧
    ((iterPrev s.tracks.length s).map (fun t => t.currentIndex) = some s.currentIndex) := by
  refine ⟨?_, ?_, ?_, ?_⟩
  · rw [playNext_sequential s hm hn hc0 hcn]
    rfl
  · rw [playPrevious_sequential s hm hn hc0 hcn hct]
    rfl
  · rw [iterNext_sequential s.tracks.length s hm hn hc0 hcn]
    have : (s.currentIndex + s.tracks.length) % (s.tracks.length : Int) = s.currentIndex := by
      have h2 : s.currentIndex + (s.tracks.length : Int)
          = s.currentIndex + (s.tracks.length : Int) * 1 := by ring
      rw [h2, Int.add_mul_emod_self_left]
      exact Int.emod_eq_of_lt hc0 hcn
    simp only [this, Option.map_some]
    rfl
  · rw [iterPrev_sequential s.tracks.length s hm hn hc0 hcn hct]
    have : (s.currentIndex - s.tracks.length) % (s.tracks.length : Int) = s.currentIndex := by
      have h2 : s.currentIndex - (s.tracks.length : Int)
          = s.currentIndex + (s.tracks.length : Int) * (-1) := by ring
      rw [h2, Int.add_mul_emod_self_left]
      exact Int.emod_eq_of_lt hc0 hcn
    simp only [this, Option.map_some]
    rfl

/-- Counterexample to C7 as stated: Sequential mode, four tracks, current index
0, playback position 4 seconds. `playPrevious` does not compute
`(0 - 1 + 4) mod 4 = 3`: it restarts the current track (position reset to 0)
and leaves the index at 0. -/
theorem c7_counterexample :
    ((playPrevious ⟨[⟨"a"⟩, ⟨"b"⟩, ⟨"c"⟩, ⟨"d"⟩], 0, false, [], 0, 4⟩).map
        (fun t => t.currentIndex) = some 0) ∧
    ¬ ((playPrevious ⟨[⟨"a"⟩, ⟨"b"⟩, ⟨"c"⟩, ⟨"d"⟩], 0, false, [], 0, 4⟩).map
        (fun t => t.currentIndex) = some 3) ∧
    ((playPrevious ⟨[⟨"a"⟩, ⟨"b"⟩, ⟨"c"⟩, ⟨"d"⟩], 0, false, [], 0, 4⟩).map
        (fun t => t.audioCurrentTime) = some 0) := by
  decide

/-- Witness for C7: the spec scenario `n = 4`, `currentIndex = 3` (so `next`
wraps to 0), with the playback position at 0 seconds. -/
theorem c7_witness :
    ((⟨[⟨"a"⟩, ⟨"b"⟩, ⟨"c"⟩, ⟨"d"⟩], 3, false, [], 0, 0⟩ : AppState).shuffleMode = false) ∧
    ((playNext ⟨[⟨"a"⟩, ⟨"b"⟩, ⟨"c"⟩, ⟨"d"⟩], 3, false, [], 0, 0⟩).map
        (fun t => t.currentIndex) = some ((3 + 1) % (4 : Int))) ∧
    ((iterNext 4 ⟨[⟨"a"⟩, ⟨"b"⟩, ⟨"c"⟩, ⟨"d"⟩], 3, false, [], 0, 0⟩).map
        (fun t => t.currentIndex) = some 3) :=
  ⟨rfl,
    (c7_sequential_order ⟨[⟨"a"⟩, ⟨"b"⟩, ⟨"c"⟩, ⟨"d"⟩], 3, false, [], 0, 0⟩ rfl
      (by decide) (by decide) (by decide) (by decide)).1,
    (c7_sequential_order ⟨[⟨"a"⟩, ⟨"b"⟩, ⟨"c"⟩, ⟨"d"⟩], 3, false, [], 0, 0⟩ rfl
      (by decide) (by decide) (by decide) (by decide)).2.2.1⟩

-- ==================== Storage layer (src/storage.js) ====================

/-!
The store state mirrors the IndexedDB collections of src/storage.js: the
`playlists` and `tracks` object stores with their auto-increment key counters
(IndexedDB counters start at 1). Blobs are byte lists; `size` is the byte
count, as `Blob.size` is.

`savePlaylist` (src/storage.js:91-148) runs one readwrite transaction:
`add` the metadata row (totalSize 0), then, inside the `onsuccess` callback,
`add` one track row per input track, finally `put` the metadata row again with
`totalSize` patched. The callback is declared `async`, and for a track whose
`file` is not already a `Blob` it does `await fileToBlob(track.file)`. An
IndexedDB transaction stays alive only while request callbacks run
synchronously: at that `await` the callback returns to the event loop with no
request pending, so the transaction commits with only the rows added so far;
when the awaited conversion finishes, `trackStore.add` throws
`TransactionInactiveError` inside the async callback and neither `resolve` nor
`reject` ever runs. The embedding therefore distinguishes the first track
whose `fileIsBlob` flag is false: rows before it are committed together with
the unpatched metadata row, and the result is `none` (the promise never
settles). When every `file` is a `Blob` the whole loop runs synchronously and
the transaction commits in full.
-/

/-- In-memory track objects handed to `savePlaylist` (`{name, file, url}`):
display name, the file object's name, MIME type and bytes, and whether the
`file` member already is a `Blob` (`track.file instanceof Blob`,
src/storage.js:119). -/
structure InTrack where
  name : String
  fileName : String
  fileType : String
  fileBytes : List Nat
  fileIsBlob : Bool
deriving DecidableEq

/-- A row of the `playlists` object store (src/storage.js:100-105, 136-137). -/
structure PlaylistRec where
  id : Nat
  name : String
  trackCount : Nat
  createdAt : String
  totalSize : Nat
deriving DecidableEq

/-- A row of the `tracks` object store (src/storage.js:122-130). -/
structure TrackRec where
  id : Nat
  playlistId : Nat
  name : String
  originalName : String
  order : Nat
  audioBlob : List Nat
  size : Nat
  type : String
deriving DecidableEq

/-- The persistent store: both object stores plus their auto-increment
counters. -/
structure DB where
  playlists : List PlaylistRec
  tracks : List TrackRec
  nextPlaylistId : Nat
  nextTrackId : Nat
deriving DecidableEq

/-- Storage failures surfaced to callers (spec section 7); `loadPlaylist`
rejects with `new Error("Playlist not found")` when the id is absent. -/
inductive StoreErr where
  | RecordNotFound
deriving DecidableEq

/-- The stored MIME type `track.file.type || "audio/mpeg"` (src/storage.js:129). -/
def jsType (t : InTrack) : String :=
  if t.fileType = "" then "audio/mpeg" else t.fileType

/-- The track rows built by the save loop (src/storage.js:115-132): the `i`-th
input becomes a row keyed `tid + i` with `playlistId := pid`, `order := i` and
`size` the blob byte count. -/
def mkTrackRecs (pid tid : Nat) : Nat → List InTrack → List TrackRec
  | _, [] => []
  | i, t :: ts =>
    ⟨tid + i, pid, t.name, t.fileName, i, t.fileBytes, t.fileBytes.length, jsType t⟩
      :: mkTrackRecs pid tid (i + 1) ts

/-- `savePlaylist` (src/storage.js:91-148). Returns the resolved playlist id
(`none` when the promise never settles) and the store state left committed.
The branch on `findIdx` locates the first input whose `file` is not a `Blob`;
see the section comment for why that input splits the transaction. -/
def savePlaylist (name : String) (ts : List InTrack) (now : String) (st : DB) :
    Option Nat × DB :=
  if (ts.findIdx (fun t => !t.fileIsBlob)) = ts.length then
    (some st.nextPlaylistId,
      ⟨st.playlists
          ++ [⟨st.nextPlaylistId, name, ts.length, now,
              ((mkTrackRecs st.nextPlaylistId st.nextTrackId 0 ts).map
                (fun r => r.size)).sum⟩],
        st.tracks ++ mkTrackRecs st.nextPlaylistId st.nextTrackId 0 ts,
        st.nextPlaylistId + 1, st.nextTrackId + ts.length⟩)
  else
    (none,
      ⟨st.playlists ++ [⟨st.nextPlaylistId, name, ts.length, now, 0⟩],
        st.tracks
          ++ (mkTrackRecs st.nextPlaylistId st.nextTrackId 0 ts).take
            (ts.findIdx (fun t => !t.fileIsBlob)),
        st.nextPlaylistId + 1, st.nextTrackId + ts.findIdx (fun t => !t.fileIsBlob)⟩)

/-- The rows the `playlistId` secondary index holds for `pid`
(src/storage.js:174-175, 220-221). -/
def tracksOf (st : DB) (pid : Nat) : List TrackRec :=
  st.tracks.filter (fun r => r.playlistId == pid)

/-- The in-place `tracks.sort((a, b) => a.order - b.order)` of `loadPlaylist`
(src/storage.js:180): a stable comparison sort ascending by `order`. -/
def sortByOrder (l : List TrackRec) : List TrackRec :=
  l.mergeSort (fun a b => decide (a.order ≤ b.order))

/-- A materialized track as `loadPlaylist` returns it (src/storage.js:183-189):
name, original file name, the blob bytes (exposed through a fresh `File` and
object URL), and its position after sorting. -/
structure LoadedTrack where
  name : String
  originalName : String
  fileBytes : List Nat
  fileType : String
  index : Nat
deriving DecidableEq

/-- The `tracks.map((track, index) => ...)` step of `loadPlaylist`
(src/storage.js:183-189). -/
def processTracks : Nat → List TrackRec → List LoadedTrack
  | _, [] => []
  | i, r :: rs => ⟨r.name, r.originalName, r.audioBlob, r.type, i⟩ :: processTracks (i + 1) rs

/-- `loadPlaylist` (src/storage.js:156-200): reject when the id is absent,
otherwise sort the rows the index returned (`retr`; IndexedDB promises no
particular `getAll` order, so it is a parameter) and materialize them. -/
def loadPlaylist (st : DB) (pid : Nat) (retr : List TrackRec) :
    Except StoreErr (PlaylistRec × List LoadedTrack) :=
  match st.playlists.find? (fun p => p.id == pid) with
  | none => Except.error StoreErr.RecordNotFound
  | some p => Except.ok (p, processTracks 0 (sortByOrder retr))

/-- `deletePlaylist` (src/storage.js:208-238): one transaction deletes the
metadata row and cursor-walks the `playlistId` index deleting every matching
track row. -/
def deletePlaylist (st : DB) (pid : Nat) : DB :=
  ⟨st.playlists.filter (fun p => !(p.id == pid)),
    st.tracks.filter (fun r => !(r.playlistId == pid)),
    st.nextPlaylistId, st.nextTrackId⟩

/-- The aggregate invariant of spec sections 3 and 8: every stored playlist
row carries the count and total byte size of its track rows. -/
def aggInvariant (st : DB) : Prop :=
  ∀ p ∈ st.playlists,
    p.trackCount = (tracksOf st p.id).length ∧
    p.totalSize = ((tracksOf st p.id).map (fun r => r.size)).sum

instance (st : DB) : Decidable (aggInvariant st) := by
  unfold aggInvariant
  infer_instance

-- ==================== C1 / C6: the broken save transaction ====================

/-- Claim C1: `savePlaylist` is not atomic — the claim is right and the code
is wrong. On the input below (one track whose `file` is not a `Blob`, a case
`fileToBlob` exists to serve) the `await` inside the transaction callback lets
the transaction auto-commit early: afterwards the playlist row is observable
in storage with `trackCount = 1` and `totalSize = 0` while none of its track
rows exist, and the returned promise never settles. -/
theorem c1_partial_commit :
    (savePlaylist "P" [⟨"a", "a.mp3", "audio/mpeg", [0, 1, 2, 3], false⟩] "t"
      ⟨[], [], 1, 1⟩).1 = none ∧
    ((savePlaylist "P" [⟨"a", "a.mp3", "audio/mpeg", [0, 1, 2, 3], false⟩] "t"
      ⟨[], [], 1, 1⟩).2.playlists.map (fun p => (p.id, p.trackCount, p.totalSize))
        = [(1, 1, 0)]) ∧
    tracksOf (savePlaylist "P" [⟨"a", "a.mp3", "audio/mpeg", [0, 1, 2, 3], false⟩] "t"
      ⟨[], [], 1, 1⟩).2 1 = [] := by
  decide

/-- Claim C6: the aggregate invariant does not hold in every observable
storage state — the claim is right and the code is wrong. After the same
broken save with one `Blob` track followed by one non-`Blob` track, storage
holds the playlist row with `trackCount = 2`, `totalSize = 0` next to exactly
one track row of size 2. -/
theorem c6_invariant_violated :
    (savePlaylist "Mix" [⟨"a", "a.mp3", "audio/mpeg", [0, 1], true⟩,
        ⟨"b", "b.mp3", "audio/mpeg", [2, 3, 4], false⟩] "t" ⟨[], [], 1, 1⟩).1 = none ∧
    ((savePlaylist "Mix" [⟨"a", "a.mp3", "audio/mpeg", [0, 1], true⟩,
        ⟨"b", "b.mp3", "audio/mpeg", [2, 3, 4], false⟩] "t"
      ⟨[], [], 1, 1⟩).2.playlists.map (fun p => (p.trackCount, p.totalSize)) = [(2, 0)]) ∧
    ((tracksOf (savePlaylist "Mix" [⟨"a", "a.mp3", "audio/mpeg", [0, 1], true⟩,
        ⟨"b", "b.mp3", "audio/mpeg", [2, 3, 4], false⟩] "t"
      ⟨[], [], 1, 1⟩).2 1).map (fun r => r.size) = [2]) ∧
    ¬ aggInvariant (savePlaylist "Mix" [⟨"a", "a.mp3", "audio/mpeg", [0, 1], true⟩,
        ⟨"b", "b.mp3", "audio/mpeg", [2, 3, 4], false⟩] "t" ⟨[], [], 1, 1⟩).2 := by
  decide

-- ==================== C5: cascade delete ====================

/-- Claim C5: after `deletePlaylist`, no track row with that `playlistId`
remains, and a subsequent `loadPlaylist` of the id fails with
`RecordNotFound`, whatever rows the store held and whatever order the track
index would have returned rows in. -/
theorem c5_cascade_delete (st : DB) (pid : Nat) (retr : List TrackRec) :
    tracksOf (deletePlaylist st pid) pid = [] ∧
    loadPlaylist (deletePlaylist st pid) pid retr = Except.error StoreErr.RecordNotFound := by
  constructor
  · rw [tracksOf, deletePlaylist]
    simp only [List.filter_filter]
    apply List.filter_eq_nil_iff.mpr
    intro r _
    cases h : (r.playlistId == pid) <;> simp [h]
  · rw [loadPlaylist]
    have hfind : (deletePlaylist st pid).playlists.find? (fun p => p.id == pid) = none := by
      apply List.find?_eq_none.mpr
      intro p hp
      rw [deletePlaylist] at hp
      simp only [List.mem_filter] at hp
      cases h : (p.id == pid)
      · simp [h]
      · rw [h] at hp
        simp at hp
    rw [hfind]

-- ==================== C4: save/load round trip ====================

lemma mkTrackRecs_mem_playlistId : ∀ (ts : List InTrack) (pid tid i : Nat) (r : TrackRec),
    r ∈ mkTrackRecs pid tid i ts → r.playlistId = pid := by
  intro ts
  induction ts with
  | nil => intro pid tid i r hr; simp [mkTrackRecs] at hr
  | cons t ts ih =>
    intro pid tid i r hr
    rw [mkTrackRecs] at hr
    rcases List.mem_cons.mp hr with h | h
    · rw [h]
    · exact ih pid tid (i + 1) r h

lemma mkTrackRecs_mem_order_ge : ∀ (ts : List InTrack) (pid tid i : Nat) (r : TrackRec),
    r ∈ mkTrackRecs pid tid i ts → i ≤ r.order := by
  intro ts
  induction ts with
  | nil => intro pid tid i r hr; simp [mkTrackRecs] at hr
  | cons t ts ih =>
    intro pid tid i r hr
    rw [mkTrackRecs] at hr
    rcases List.mem_cons.mp hr with h | h
    · rw [h]
    · exact le_of_lt (lt_of_lt_of_le (Nat.lt_succ_self i) (ih pid tid (i + 1) r h))

lemma mkTrackRecs_pairwise : ∀ (ts : List InTrack) (pid tid i : Nat),
    (mkTrackRecs pid tid i ts).Pairwise (fun a b => a.order < b.order) := by
  intro ts
  induction ts with
  | nil => intro pid tid i; exact List.Pairwise.nil
  | cons t ts ih =>
    intro pid tid i
    rw [mkTrackRecs]
    refine List.Pairwise.cons ?_ (ih pid tid (i + 1))
    intro r hr
    have := mkTrackRecs_mem_order_ge ts pid tid (i + 1) r hr
    show i < r.order
    omega

lemma perm_sorted_key_eq {α : Type} (key : α → Nat) : ∀ (l₁ l₂ : List α), l₁.Perm l₂ →
    l₁.Pairwise (fun a b => key a ≤ key b) → l₂.Pairwise (fun a b => key a < key b) →
    l₁ = l₂ := by
  intro l₁
  induction l₁ with
  | nil =>
    intro l₂ hp _ _
    exact hp.nil_eq
  | cons a t₁ ih =>
    intro l₂ hp hs₁ hs₂
    cases l₂ with
    | nil => simpa using hp.length_eq
    | cons b t₂ =>
      have hab : a = b := by
        by_contra hne
        have ha : a ∈ t₂ := by
          rcases List.mem_cons.mp (hp.mem_iff.mp (List.mem_cons_self a t₁)) with h | h
          · exact absurd h hne
          · exact h
        have hb : b ∈ t₁ := by
          rcases List.mem_cons.mp (hp.mem_iff.mpr (List.mem_cons_self b t₂)) with h | h
          · exact absurd h.symm hne
          · exact h
        have h1 : key a ≤ key b := (List.pairwise_cons.mp hs₁).1 b hb
        have h2 : key b < key a := (List.pairwise_cons.mp hs₂).1 a ha
        omega
      subst hab
      exact congrArg (List.cons a)
        (ih t₂ hp.cons_inv (List.pairwise_cons.mp hs₁).2 (List.pairwise_cons.mp hs₂).2)

lemma sortByOrder_perm (l : List TrackRec) : (sortByOrder l).Perm l :=
  List.mergeSort_perm l _

lemma sortByOrder_pairwise (l : List TrackRec) :
    (sortByOrder l).Pairwise (fun a b => a.order ≤ b.order) := by
  have htrans : ∀ (a b c : TrackRec), decide (a.order ≤ b.order) = true →
      decide (b.order ≤ c.order) = true → decide (a.order ≤ c.order) = true := by
    intro a b c h1 h2
    simp only [decide_eq_true_eq] at h1 h2 ⊢
    omega
  have htotal : ∀ (a b : TrackRec),
      (decide (a.order ≤ b.order) || decide (b.order ≤ a.order)) = true := by
    intro a b
    simp only [Bool.or_eq_true, decide_eq_true_eq]
    omega
  have h := List.sorted_mergeSort htrans htotal l
  exact h.imp (fun hab => by simpa using hab)

lemma processTracks_fields : ∀ (ts : List InTrack) (pid tid i : Nat),
    (processTracks i (mkTrackRecs pid tid i ts)).map (fun t => t.name)
        = ts.map (fun t => t.name) ∧
    (processTracks i (mkTrackRecs pid tid i ts)).map (fun t => t.originalName)
        = ts.map (fun t => t.fileName) ∧
    (processTracks i (mkTrackRecs pid tid i ts)).map (fun t => t.fileBytes)
        = ts.map (fun t => t.fileBytes) ∧
    (processTracks i (mkTrackRecs pid tid i ts)).map (fun t => t.fileBytes.length)
        = ts.map (fun t => t.fileBytes.length) := by
  intro ts
  induction ts with
  | nil => intro pid tid i; simp [mkTrackRecs, processTracks]
  | cons t ts ih =>
    intro pid tid i
    obtain ⟨h1, h2, h3, h4⟩ := ih pid tid (i + 1)
    rw [mkTrackRecs, processTracks]
    refine ⟨?_, ?_, ?_, ?_⟩ <;> simp [h1, h2, h3, h4]

lemma loadPlaylist_found (st : DB) (pid : Nat) (retr : List TrackRec) (p : PlaylistRec)
    (hf : st.playlists.find? (fun q => q.id == pid) = some p) :
    loadPlaylist st pid retr = Except.ok (p, processTracks 0 (sortByOrder retr)) := by
  rw [loadPlaylist, hf]

/-- Claim C4: on a well-formed store (all stored ids lie below the
auto-increment counters), a completed `savePlaylist` followed by
`loadPlaylist` of the returned id yields tracks with the same names, original
file names, byte-for-byte blob contents and sizes, in the order supplied —
whatever order the track index returned the rows in, since the load sorts by
`order` ascending. -/
theorem c4_round_trip (name now : String) (ts : List InTrack) (st : DB) (pid : Nat) (st2 : DB)
    (hwfp : ∀ p ∈ st.playlists, p.id < st.nextPlaylistId)
    (hwft : ∀ r ∈ st.tracks, r.playlistId < st.nextPlaylistId)
    (_hne : ts ≠ [])
    (hsave : savePlaylist name ts now st = (some pid, st2))
    (retr : List TrackRec) (hretr : retr.Perm (tracksOf st2 pid)) :
    ∃ p lts, loadPlaylist st2 pid retr = Except.ok (p, lts) ∧
      lts.map (fun t => t.name) = ts.map (fun t => t.name) ∧
      lts.map (fun t => t.originalName) = ts.map (fun t => t.fileName) ∧
      lts.map (fun t => t.fileBytes) = ts.map (fun t => t.fileBytes) ∧
      lts.map (fun t => t.fileBytes.length) = ts.map (fun t => t.fileBytes.length) := by
  rw [savePlaylist] at hsave
  by_cases hall : (ts.findIdx (fun t => !t.fileIsBlob)) = ts.length
  case neg =>
    rw [if_neg hall] at hsave
    exact absurd (congrArg Prod.fst hsave) (by simp)
  rw [if_pos hall] at hsave
  have hpid : pid = st.nextPlaylistId := by
    have h := congrArg Prod.fst hsave
    simpa using h.symm
  have hst2 := (congrArg Prod.snd hsave).symm
  simp only at hst2
  subst hpid
  subst hst2
  have hfind : (st.playlists
        ++ [(⟨st.nextPlaylistId, name, ts.length, now,
            ((mkTrackRecs st.nextPlaylistId st.nextTrackId 0 ts).map
              (fun r => r.size)).sum⟩ : PlaylistRec)]).find?
        (fun q => q.id == st.nextPlaylistId)
      = some (⟨st.nextPlaylistId, name, ts.length, now,
          ((mkTrackRecs st.nextPlaylistId st.nextTrackId 0 ts).map
            (fun r => r.size)).sum⟩ : PlaylistRec) := by
    rw [List.find?_append]
    have hold : st.playlists.find? (fun q => q.id == st.nextPlaylistId) = none := by
      apply List.find?_eq_none.mpr
      intro q hq
      have := hwfp q hq
      simp only [beq_iff_eq]
      omega
    rw [hold]
    simp [Option.or]
  have htracks : (st.tracks ++ mkTrackRecs st.nextPlaylistId st.nextTrackId 0 ts).filter
        (fun r => r.playlistId == st.nextPlaylistId)
      = mkTrackRecs st.nextPlaylistId st.nextTrackId 0 ts := by
    rw [List.filter_append]
    have hold : st.tracks.filter (fun r => r.playlistId == st.nextPlaylistId) = [] := by
      apply List.filter_eq_nil_iff.mpr
      intro r hr
      have := hwft r hr
      simp only [beq_iff_eq]
      omega
    have hnew : (mkTrackRecs st.nextPlaylistId st.nextTrackId 0 ts).filter
        (fun r => r.playlistId == st.nextPlaylistId)
        = mkTrackRecs st.nextPlaylistId st.nextTrackId 0 ts := by
      apply List.filter_eq_self.mpr
      intro r hr
      simp only [beq_iff_eq]
      exact mkTrackRecs_mem_playlistId ts st.nextPlaylistId st.nextTrackId 0 r hr
    rw [hold, hnew, List.nil_append]
  have hsorted : sortByOrder retr = mkTrackRecs st.nextPlaylistId st.nextTrackId 0 ts := by
    apply perm_sorted_key_eq (fun r => r.order)
    · refine (sortByOrder_perm retr).trans (hretr.trans ?_)
      show List.Perm (tracksOf _ st.nextPlaylistId) _
      rw [tracksOf]
      show List.Perm ((st.tracks ++ mkTrackRecs st.nextPlaylistId st.nextTrackId 0 ts).filter
        (fun r => r.playlistId == st.nextPlaylistId)) _
      rw [htracks]
    · exact sortByOrder_pairwise retr
    · exact mkTrackRecs_pairwise ts st.nextPlaylistId st.nextTrackId 0
  obtain ⟨h1, h2, h3, h4⟩ := processTracks_fields ts st.nextPlaylistId st.nextTrackId 0
  refine ⟨⟨st.nextPlaylistId, name, ts.length, now,
      ((mkTrackRecs st.nextPlaylistId st.nextTrackId 0 ts).map (fun r => r.size)).sum⟩,
    processTracks 0 (mkTrackRecs st.nextPlaylistId st.nextTrackId 0 ts), ?_, h1, h2, h3, h4⟩
  rw [loadPlaylist_found _ _ _ _ hfind, hsorted]

/-- Witness for C4: a two-track playlist saved into an empty store, with the
track rows handed back by the index in reversed order. -/
theorem c4_witness :
    ((∀ p ∈ ([] : List PlaylistRec), p.id < 1) ∧
      (([⟨"b", "b.mp3", "", [5], true⟩, ⟨"a", "a.mp3", "audio/mpeg", [7, 8], true⟩]
        : List InTrack) ≠ []) ∧
      savePlaylist "RT"
          [⟨"b", "b.mp3", "", [5], true⟩, ⟨"a", "a.mp3", "audio/mpeg", [7, 8], true⟩]
          "t" ⟨[], [], 1, 1⟩
        = (some 1,
            ⟨[⟨1, "RT", 2, "t", 3⟩],
              [⟨1, 1, "b", "b.mp3", 0, [5], 1, "audio/mpeg"⟩,
                ⟨2, 1, "a", "a.mp3", 1, [7, 8], 2, "audio/mpeg"⟩], 2, 3⟩) ∧
      ([⟨2, 1, "a", "a.mp3", 1, [7, 8], 2, "audio/mpeg"⟩,
          ⟨1, 1, "b", "b.mp3", 0, [5], 1, "audio/mpeg"⟩] : List TrackRec).Perm
        (tracksOf ⟨[⟨1, "RT", 2, "t", 3⟩],
            [⟨1, 1, "b", "b.mp3", 0, [5], 1, "audio/mpeg"⟩,
              ⟨2, 1, "a", "a.mp3", 1, [7, 8], 2, "audio/mpeg"⟩], 2, 3⟩ 1)) ∧
    (∃ p lts, loadPlaylist
          ⟨[⟨1, "RT", 2, "t", 3⟩],
            [⟨1, 1, "b", "b.mp3", 0, [5], 1, "audio/mpeg"⟩,
              ⟨2, 1, "a", "a.mp3", 1, [7, 8], 2, "audio/mpeg"⟩], 2, 3⟩ 1
          [⟨2, 1, "a", "a.mp3", 1, [7, 8], 2, "audio/mpeg"⟩,
            ⟨1, 1, "b", "b.mp3", 0, [5], 1, "audio/mpeg"⟩] = Except.ok (p, lts) ∧
      lts.map (fun t => t.name)
        = ([⟨"b", "b.mp3", "", [5], true⟩, ⟨"a", "a.mp3", "audio/mpeg", [7, 8], true⟩]
            : List InTrack).map (fun t => t.name) ∧
      lts.map (fun t => t.originalName)
        = ([⟨"b", "b.mp3", "", [5], true⟩, ⟨"a", "a.mp3", "audio/mpeg", [7, 8], true⟩]
            : List InTrack).map (fun t => t.fileName) ∧
      lts.map (fun t => t.fileBytes)
        = ([⟨"b", "b.mp3", "", [5], true⟩, ⟨"a", "a.mp3", "audio/mpeg", [7, 8], true⟩]
            : List InTrack).map (fun t => t.fileBytes) ∧
      lts.map (fun t => t.fileBytes.length)
        = ([⟨"b", "b.mp3", "", [5], true⟩, ⟨"a", "a.mp3", "audio/mpeg", [7, 8], true⟩]
            : List InTrack).map (fun t => t.fileBytes.length)) :=
  ⟨⟨by decide, by decide, by decide, by decide⟩,
    c4_round_trip "RT" "t"
      [⟨"b", "b.mp3", "", [5], true⟩, ⟨"a", "a.mp3", "audio/mpeg", [7, 8], true⟩]
      ⟨[], [], 1, 1⟩ 1
      ⟨[⟨1, "RT", 2, "t", 3⟩],
        [⟨1, 1, "b", "b.mp3", 0, [5], 1, "audio/mpeg"⟩,
          ⟨2, 1, "a", "a.mp3", 1, [7, 8], 2, "audio/mpeg"⟩], 2, 3⟩
      (by decide) (by decide) (by decide) (by decide)
      [⟨2, 1, "a", "a.mp3", 1, [7, 8], 2, "audio/mpeg"⟩,
        ⟨1, 1, "b", "b.mp3", 0, [5], 1, "audio/mpeg"⟩]
      (by decide)⟩

-- ==================== Preferences store (src/storage.js:271-313) ====================

/-- A preference value: the app stores a float (`volume`), a boolean
(`shuffleMode`) and an integer (`lastTrackIndex`). -/
inductive PrefValue where
  | num (q : Rat)
  | flag (b : Bool)
  | str (s : String)
deriving DecidableEq

/-- A row of the `preferences` object store, keyed by `key`
(src/storage.js:281). -/
structure PrefRecord where
  key : String
  value : PrefValue
  updatedAt : String
deriving DecidableEq

/-- One `store.put({key, value, updatedAt})` (src/storage.js:281): an upsert
keyed by `key` — it replaces the row with that key when one exists and
inserts a new row otherwise. -/
def putPref (st : List PrefRecord) (k : String) (v : PrefValue) (t : String) :
    List PrefRecord :=
  if st.any (fun r => r.key == k) then
    st.map (fun r => if r.key == k then ⟨k, v, t⟩ else r)
  else st ++ [⟨k, v, t⟩]

/-- `savePreferences` (src/storage.js:271-287): `Object.entries(prefs)` is the
entry list; each entry is put independently inside one transaction. -/
def savePreferences (entries : List (String × PrefValue)) (t : String)
    (st : List PrefRecord) : List PrefRecord :=
  entries.foldl (fun acc e => putPref acc e.1 e.2 t) st

/-- `loadPreferences` (src/storage.js:294-313): fold every stored record into
one object via `prefs[record.key] = record.value`; a later record with the
same key would overwrite an earlier one. -/
def loadPreferences (st : List PrefRecord) : String → Option PrefValue :=
  st.foldl (fun prefs r => fun k => if k = r.key then some r.value else prefs k)
    (fun _ => none)

/-- The value the last record with key `k` holds, if any: the reference
reading of the `loadPreferences` fold. -/
def lastVal : List PrefRecord → String → Option PrefValue
  | [], _ => none
  | r :: rs, k =>
    match lastVal rs k with
    | some v => some v
    | none => if k = r.key then some r.value else none

lemma loadPreferences_foldl : ∀ (st : List PrefRecord)
    (acc : String → Option PrefValue) (k : String),
    st.foldl (fun prefs r => fun k => if k = r.key then some r.value else prefs k) acc k
      = match lastVal st k with
        | some v => some v
        | none => acc k := by
  intro st
  induction st with
  | nil => intro acc k; rfl
  | cons r rs ih =>
    intro acc k
    rw [List.foldl_cons, ih, lastVal]
    cases lastVal rs k with
    | some v => rfl
    | none =>
      by_cases hk : k = r.key
      · simp [hk]
      · simp [hk]

lemma loadPreferences_eq_lastVal (st : List PrefRecord) (k : String) :
    loadPreferences st k
      = match lastVal st k with
        | some v => some v
        | none => none := by
  rw [loadPreferences, loadPreferences_foldl]

lemma lastVal_append : ∀ (l₁ l₂ : List PrefRecord) (k : String),
    lastVal (l₁ ++ l₂) k
      = match lastVal l₂ k with
        | some v => some v
        | none => lastVal l₁ k := by
  intro l₁
  induction l₁ with
  | nil =>
    intro l₂ k
    rw [List.nil_append]
    cases lastVal l₂ k <;> rfl
  | cons r rs ih =>
    intro l₂ k
    rw [List.cons_append, lastVal, ih, lastVal]
    cases lastVal l₂ k with
    | some v => rfl
    | none => rfl

lemma lastVal_none_of_no_key : ∀ (st : List PrefRecord) (k : String),
    (∀ r ∈ st, r.key ≠ k) → lastVal st k = none := by
  intro st
  induction st with
  | nil => intro k _; rfl
  | cons r rs ih =>
    intro k h
    rw [lastVal, ih k (fun q hq => h q (List.mem_cons_of_mem r hq))]
    have : k ≠ r.key := fun hk => h r (List.mem_cons_self r rs) hk.symm
    simp [this]

lemma lastVal_putPref_self (st : List PrefRecord) (k : String) (v : PrefValue) (t : String) :
    lastVal (putPref st k v t) k = some v := by
  rw [putPref]
  by_cases hany : st.any (fun r => r.key == k)
  · rw [if_pos hany]
    induction st with
    | nil => simp at hany
    | cons r rs ih =>
      rw [List.map_cons, lastVal]
      by_cases htail : rs.any (fun r => r.key == k)
      · rw [ih htail]
      · have hkeys : ∀ q ∈ rs.map (fun r => if r.key == k then (⟨k, v, t⟩ : PrefRecord) else r),
            q.key ≠ k := by
          intro q hq
          obtain ⟨r0, hr0, hq0⟩ := List.mem_map.mp hq
          have hr0k : (r0.key == k) = false := by
            rcases h : (r0.key == k) with _ | _
            · rfl
            · exact absurd (List.any_eq_true.mpr ⟨r0, hr0, h⟩) htail
          rw [hr0k] at hq0
          simp only [if_neg Bool.false_ne_true] at hq0
          rw [← hq0]
          intro hc
          rw [hc] at hr0k
          simp at hr0k
        rw [lastVal_none_of_no_key _ k hkeys]
        have hrk : (r.key == k) = true := by
          rcases List.any_eq_true.mp hany with ⟨q, hq, hqk⟩
          rcases List.mem_cons.mp hq with h | h
          · rw [← h]; exact hqk
          · exact absurd (List.any_eq_true.mpr ⟨q, h, hqk⟩) htail
        rw [hrk]
        simp
  · rw [if_neg hany, lastVal_append]
    rw [lastVal, lastVal]
    simp

lemma lastVal_map_replace : ∀ (st : List PrefRecord) (k : String) (v : PrefValue) (t k' : String),
    k' ≠ k →
    lastVal (st.map (fun r => if r.key == k then ⟨k, v, t⟩ else r)) k' = lastVal st k' := by
  intro st
  induction st with
  | nil => intro k v t k' _; rfl
  | cons r rs ih =>
    intro k v t k' hne
    rw [List.map_cons, lastVal, lastVal, ih k v t k' hne]
    cases lastVal rs k' with
    | some w => rfl
    | none =>
      rcases h : (r.key == k) with _ | _
      · simp only [h, if_neg Bool.false_ne_true]
      · have hkk : r.key = k := by simpa using h
        have h2 : k' ≠ r.key := by rw [hkk]; exact hne
        simp [h, hne, h2]

lemma lastVal_putPref_ne (st : List PrefRecord) (k : String) (v : PrefValue) (t k' : String)
    (hne : k' ≠ k) : lastVal (putPref st k v t) k' = lastVal st k' := by
  rw [putPref]
  by_cases hany : st.any (fun r => r.key == k)
  · rw [if_pos hany, lastVal_map_replace st k v t k' hne]
  · rw [if_neg hany, lastVal_append, lastVal, lastVal]
    simp [hne]

lemma savePreferences_notin : ∀ (entries : List (String × PrefValue)) (t : String)
    (st : List PrefRecord) (k : String), (∀ e ∈ entries, e.1 ≠ k) →
    lastVal (savePreferences entries t st) k = lastVal st k := by
  intro entries
  induction entries with
  | nil => intro t st k _; rfl
  | cons e es ih =>
    intro t st k h
    rw [savePreferences, List.foldl_cons]
    rw [show es.foldl (fun acc e => putPref acc e.1 e.2 t) (putPref st e.1 e.2 t)
        = savePreferences es t (putPref st e.1 e.2 t) from rfl]
    rw [ih t (putPref st e.1 e.2 t) k (fun q hq => h q (List.mem_cons_of_mem e hq))]
    exact lastVal_putPref_ne st e.1 e.2 t k
      (fun hk => h e (List.mem_cons_self e es) hk.symm)

lemma savePreferences_mem : ∀ (entries : List (String × PrefValue)) (t : String)
    (st : List PrefRecord) (k : String) (v : PrefValue),
    (entries.map Prod.fst).Nodup → (k, v) ∈ entries →
    lastVal (savePreferences entries t st) k = some v := by
  intro entries
  induction entries with
  | nil => intro t st k v _ hm; simp at hm
  | cons e es ih =>
    intro t st k v hnd hm
    rw [List.map_cons, List.nodup_cons] at hnd
    rw [savePreferences, List.foldl_cons]
    rw [show es.foldl (fun acc e => putPref acc e.1 e.2 t) (putPref st e.1 e.2 t)
        = savePreferences es t (putPref st e.1 e.2 t) from rfl]
    rcases List.mem_cons.mp hm with h | h
    · have he : e = (k, v) := h.symm
      subst he
      rw [savePreferences_notin es t _ k
        (fun q hq hqk => hnd.1 (List.mem_map.mpr ⟨q, hq, hqk⟩))]
      exact lastVal_putPref_self st k v t
    · exact ih t (putPref st e.1 e.2 t) k v hnd.2 h

/-- Claim C9: `savePreferences` is a partial update — every key in the saved
map ends up mapping to its new value, every stored key outside the map keeps
its previous value, and `loadPreferences` merges exactly the stored rows
(absent keys load as `none`). The map has distinct keys, as a JavaScript
object does. -/
theorem c9_preferences_frame (st : List PrefRecord) (m : List (String × PrefValue)) (t : String)
    (hnd : (m.map Prod.fst).Nodup) :
    (∀ k v, (k, v) ∈ m → loadPreferences (savePreferences m t st) k = some v) ∧
    (∀ k, k ∉ m.map Prod.fst →
      loadPreferences (savePreferences m t st) k = loadPreferences st k) := by
  constructor
  · intro k v hm
    rw [loadPreferences_eq_lastVal, savePreferences_mem m t st k v hnd hm]
  · intro k hk
    rw [loadPreferences_eq_lastVal, loadPreferences_eq_lastVal,
      savePreferences_notin m t st k
        (fun e he h1 => hk (h1 ▸ List.mem_map_of_mem Prod.fst he))]

/-- Witness for C9: update `volume` and add `shuffleMode` over a store that
already holds `volume` and `lastTrackIndex`; the untouched key keeps its
value. -/
theorem c9_witness :
    ((([("volume", PrefValue.num 1), ("shuffleMode", PrefValue.flag true)]
        : List (String × PrefValue)).map Prod.fst).Nodup ∧
      (("volume", PrefValue.num 1)
        ∈ ([("volume", PrefValue.num 1), ("shuffleMode", PrefValue.flag true)]
            : List (String × PrefValue))) ∧
      ("lastTrackIndex" ∉ ([("volume", PrefValue.num 1),
          ("shuffleMode", PrefValue.flag true)]
            : List (String × PrefValue)).map Prod.fst)) ∧
    loadPreferences (savePreferences
        [("volume", PrefValue.num 1), ("shuffleMode", PrefValue.flag true)] "t"
        [⟨"volume", PrefValue.num 0, "s"⟩, ⟨"lastTrackIndex", PrefValue.num 2, "s"⟩])
      "volume" = some (PrefValue.num 1) ∧
    loadPreferences (savePreferences
        [("volume", PrefValue.num 1), ("shuffleMode", PrefValue.flag true)] "t"
        [⟨"volume", PrefValue.num 0, "s"⟩, ⟨"lastTrackIndex", PrefValue.num 2, "s"⟩])
      "lastTrackIndex" = loadPreferences
        [⟨"volume", PrefValue.num 0, "s"⟩, ⟨"lastTrackIndex", PrefValue.num 2, "s"⟩]
      "lastTrackIndex" :=
  ⟨⟨by decide, by decide, by decide⟩,
    (c9_preferences_frame
      [⟨"volume", PrefValue.num 0, "s"⟩, ⟨"lastTrackIndex", PrefValue.num 2, "s"⟩]
      [("volume", PrefValue.num 1), ("shuffleMode", PrefValue.flag true)] "t"
      (by decide)).1 "volume" (PrefValue.num 1) (by decide),
    (c9_preferences_frame
      [⟨"volume", PrefValue.num 0, "s"⟩, ⟨"lastTrackIndex", PrefValue.num 2, "s"⟩]
      [("volume", PrefValue.num 1), ("shuffleMode", PrefValue.flag true)] "t"
      (by decide)).2 "lastTrackIndex" (by decide)⟩
